import Mathlib

/-!
Verification of the deep-research draft/verify/retry loop (`main.py`).

The Python program is shallowly embedded: JSON dict records become
structures with `Option` fields (a `none` field models an absent key),
the remote generation capability becomes explicit oracle arguments
(an `Except` value models a transport fault or an unparseable payload),
and Python string operations are re-implemented over `List Char` with
Python semantics (`str.replace`, `str.split()`, `in`, slicing, case
mapping, `startswith`).  All definitions are executable so that claims
can be evaluated on concrete inputs.
-/

namespace NiceTry

/-! ## Python-semantics string helpers -/

/-- Python `needle in haystack` prefix building block, over char lists. -/
def isPrefixOfB : List Char → List Char → Bool
  | [], _ => true
  | _ :: _, [] => false
  | a :: as, b :: bs => a == b && isPrefixOfB as bs

/-- Python `needle in haystack` (substring containment), over char lists. -/
def isInfixOfB (needle : List Char) : List Char → Bool
  | [] => needle.isEmpty
  | c :: rest => isPrefixOfB needle (c :: rest) || isInfixOfB needle rest

/-- Python `sub in s` for strings. -/
def strContains (s sub : String) : Bool :=
  isInfixOfB sub.toList s.toList

/-- Python `s.startswith(p)`. -/
def strStartsWith (s p : String) : Bool :=
  isPrefixOfB p.toList s.toList

/-- Python `s.lower()` (ASCII case mapping suffices for this program). -/
def strToLower (s : String) : String :=
  (s.toList.map Char.toLower).asString

/-- Python `s.upper()`. -/
def strToUpper (s : String) : String :=
  (s.toList.map Char.toUpper).asString

/-- Python `s[:n]` (slicing by code points). -/
def strTake (s : String) (n : Nat) : String :=
  (s.toList.take n).asString

/-- Python `s.replace(old, new)` on char lists: replace every occurrence,
left to right, non-overlapping.  An empty `old` leaves the list unchanged
(the program only ever replaces non-empty literals).  The recursion is
driven by a fuel argument — one unit per consumed character — so the
function stays structurally recursive and kernel-evaluable; `pyReplace`
supplies fuel equal to the list length, which is always enough because
every step consumes at least one character. -/
def replChars (old new : List Char) : Nat → List Char → List Char
  | _, [] => []
  | 0, l => l
  | fuel + 1, c :: rest =>
    if isPrefixOfB old (c :: rest) && !old.isEmpty then
      new ++ replChars old new fuel (rest.drop (old.length - 1))
    else
      c :: replChars old new fuel rest

/-- Python `s.replace(old, new)`. -/
def pyReplace (s old new : String) : String :=
  (replChars old.toList new.toList s.toList.length s.toList).asString

/-- Helper for Python `s.split()`: accumulate the current word (reversed). -/
def pySplitChars (acc : List Char) : List Char → List String
  | [] => if acc.isEmpty then [] else [acc.reverse.asString]
  | c :: rest =>
    if c.isWhitespace then
      if acc.isEmpty then pySplitChars [] rest
      else acc.reverse.asString :: pySplitChars [] rest
    else
      pySplitChars (c :: acc) rest

/-- Python `s.split()` (split on whitespace runs, dropping empty pieces). -/
def pySplitWS (s : String) : List String :=
  pySplitChars [] s.toList

/-- Python `s.strip()`. -/
def pyStrip (s : String) : String :=
  (((s.toList.dropWhile Char.isWhitespace).reverse.dropWhile Char.isWhitespace).reverse).asString

/-- Python `s < t` on strings (lexicographic by code point). -/
def strLtChars : List Char → List Char → Bool
  | [], [] => false
  | [], _ :: _ => true
  | _ :: _, [] => false
  | a :: as, b :: bs =>
    if a.toNat < b.toNat then true
    else if b.toNat < a.toNat then false
    else strLtChars as bs

/-- Python `s < t` for strings. -/
def strLtB (s t : String) : Bool :=
  strLtChars s.toList t.toList

/-- Insert a string into an ascending list (used to model Python `sorted`). -/
def insertAsc (x : String) : List String → List String
  | [] => [x]
  | y :: ys => if strLtB x y then x :: y :: ys else y :: insertAsc x ys

/-- Python `sorted(...)` on a list of strings. -/
def sortStr (l : List String) : List String :=
  l.foldl (fun acc x => insertAsc x acc) []

/-- Helper for deduplication: drop elements already seen. -/
def dedupSeen (seen : List String) : List String → List String
  | [] => []
  | x :: xs => if seen.contains x then dedupSeen seen xs else x :: dedupSeen (x :: seen) xs

/-- Python `set(...)` materialised as first-occurrence deduplication
(the result is sorted afterwards, so the representative choice is moot). -/
def dedupKeepFirst (l : List String) : List String :=
  dedupSeen [] l

/-- Python `"sep".join(parts)`. -/
def joinWith (sep : String) : List String → String
  | [] => ""
  | [x] => x
  | x :: y :: xs => x ++ sep ++ joinWith sep (y :: xs)

/-! ## Data model

`KBEntry` is one record of a knowledge-base table (`data/mitre_simple.json`
entries carry `id`, `name`, `description`, `url`; `data/nice_simple.json`
entries carry `id`, `type`, `description`).  `RefItem` is one entry of a
drafted reference list.  `Draft` is the Hunter's parsed JSON record, with
`none` meaning the key is absent.  `VerdictDict` is the Auditor model's
parsed JSON verdict. -/

structure KBEntry where
  id : String
  name : Option String
  description : Option String
  type : Option String
  url : Option String
deriving DecidableEq, Repr

/-- A search hit: a copied KB entry with the added `_source` tag
(`item_copy = item.copy(); item_copy['_source'] = source_name`). -/
structure TaggedEntry where
  entry : KBEntry
  source : String
deriving DecidableEq, Repr

structure RefItem where
  id : Option String
  name : Option String
  description : Option String
deriving DecidableEq, Repr

structure Draft where
  refined_text : Option String
  mitre_attack : Option (List RefItem)
  knowledge : Option (List RefItem)
  skills : Option (List RefItem)
  abilities : Option (List RefItem)
  tasks : Option (List RefItem)
  justification : Option String
deriving DecidableEq, Repr

/-- The all-keys-absent draft, i.e. the empty dict `{}` a failed
`generate_draft` returns. -/
def Draft.empty : Draft :=
  ⟨none, none, none, none, none, none, none⟩

/-- Python truthiness of the draft dict (`if not draft`): the dict is falsy
exactly when it has no keys. -/
def Draft.isEmpty (d : Draft) : Bool :=
  d.refined_text.isNone && d.mitre_attack.isNone && d.knowledge.isNone &&
    d.skills.isNone && d.abilities.isNone && d.tasks.isNone && d.justification.isNone

structure VerdictDict where
  status : Option String
  feedback : Option String
deriving DecidableEq, Repr

/-- A fault of the generation capability: a transport/service error raised
by the call, or a response whose body fails to parse as JSON. -/
inductive GenFault where
  | transport
  | unparseable
deriving DecidableEq, Repr

/-- `MAX_LOOPS = 5`. -/
def MAX_LOOPS : Nat := 5

/-! ## `AuditorAgent._search_knowledge_base` -/

/-- The stop-word set of `_search_knowledge_base`. -/
def stopWords : List String :=
  ["the", "a", "an", "and", "or", "but", "in", "on", "at", "to", "for", "of", "with", "by"]

/-- `terms = [t.lower() for t in query_terms if t.lower() not in stop_words and len(t) > 3]`. -/
def filterTerms (queryTerms : List String) : List String :=
  (queryTerms.filter
      (fun t => !(stopWords.contains (strToLower t)) && t.length > 3)).map strToLower

/-- `content = (item.get('name','') + ' ' + item.get('description','') + ' ' + item.get('type','')).lower()`. -/
def entryContent (e : KBEntry) : String :=
  strToLower (e.name.getD "" ++ " " ++ e.description.getD "" ++ " " ++ e.type.getD "")

/-- `score = sum(1 for term in terms if term in content)`. -/
def entryScore (terms : List String) (e : KBEntry) : Nat :=
  (terms.filter (fun t => strContains (entryContent e) t)).length

/-- `search_dataset`, in state-passing form: the first component is the list
of `(score, tagged copy)` pairs for entries with positive score, in table
order; the second component is the table as it stands after the traversal
(each entry is re-emitted untouched — only the copy receives the
`_source` tag). -/
def searchDatasetSt (terms : List String) (src : String) :
    List KBEntry → List (Nat × TaggedEntry) × List KBEntry
  | [] => ([], [])
  | item :: rest =>
    let score := entryScore terms item
    let r := searchDatasetSt terms src rest
    ((if 0 < score then (score, ⟨item, src⟩) :: r.1 else r.1), item :: r.2)

/-- `mitre_results.sort(key=lambda x: x[0], reverse=True)` is a stable
descending sort; one insertion step: the new element goes after every
element of equal or higher score and before the first strictly lower one. -/
def insertDesc (x : Nat × TaggedEntry) : List (Nat × TaggedEntry) → List (Nat × TaggedEntry)
  | [] => [x]
  | y :: ys => if y.1 < x.1 then x :: y :: ys else y :: insertDesc x ys

/-- Stable descending sort by score (insertion sort processing the hits in
their original order). -/
def sortDesc (l : List (Nat × TaggedEntry)) : List (Nat × TaggedEntry) :=
  l.foldl (fun acc x => insertDesc x acc) []

/-- `AuditorAgent._search_knowledge_base(query_terms)`: the returned hit
list.  The two tables are explicit arguments (`self.mitre_data`,
`self.nice_data`). -/
def search_knowledge_base (mitre nice : List KBEntry) (queryTerms : List String) :
    List TaggedEntry :=
  if mitre.isEmpty && nice.isEmpty then []
  else if (filterTerms queryTerms).isEmpty then []
  else
    ((sortDesc (searchDatasetSt (filterTerms queryTerms) "MITRE ATT&CK" mitre).1).take 20).map
        Prod.snd
      ++ ((sortDesc (searchDatasetSt (filterTerms queryTerms) "NICE Framework" nice).1).take 20).map
        Prod.snd

/-- The two tables as they stand after one `_search_knowledge_base` call
(the state component of the embedding). -/
def searchKBTables (mitre nice : List KBEntry) (queryTerms : List String) :
    List KBEntry × List KBEntry :=
  if mitre.isEmpty && nice.isEmpty then (mitre, nice)
  else if (filterTerms queryTerms).isEmpty then (mitre, nice)
  else
    ((searchDatasetSt (filterTerms queryTerms) "MITRE ATT&CK" mitre).2,
      (searchDatasetSt (filterTerms queryTerms) "NICE Framework" nice).2)

/-! ## `AuditorAgent.verify`: identifier extraction and root-cause analysis -/

/-- The five reference sections in the order `verify` visits them. -/
def draftSections (d : Draft) : List (List RefItem) :=
  [d.mitre_attack.getD [], d.knowledge.getD [], d.skills.getD [],
    d.abilities.getD [], d.tasks.getD []]

/-- Step 1 of `verify`: collect every `item['id']`, then
`ids = sorted(list(set(ids)))`. -/
def extractIds (d : Draft) : List String :=
  sortStr (dedupKeepFirst ((draftSections d).flatten.filterMap RefItem.id))

/-- `found_items`: the KB records whose id appears among the draft ids,
MITRE table first, each table in its own order. -/
def foundEntries (mitre nice : List KBEntry) (ids : List String) : List KBEntry :=
  mitre.filter (fun e => ids.contains e.id) ++ nice.filter (fun e => ids.contains e.id)

/-- `invalid_ids = [uid for uid in ids if uid not in found_ids]`. -/
def verifyInvalids (mitre nice : List KBEntry) (d : Draft) : List String :=
  let ids := extractIds d
  ids.filter (fun uid => !(((foundEntries mitre nice ids).map KBEntry.id).contains uid))

/-- `get_draft_description(target_id)`: the first item with that id over the
sections in order; `item.get('description', item.get('name',''))`. -/
def getDraftDescription (d : Draft) (uid : String) : String :=
  match (draftSections d).flatten.find? (fun it => it.id == some uid) with
  | some it =>
    match it.description with
    | some s => s
    | none => it.name.getD ""
  | none => ""

/-- Whether the candidate's `mitre_attack` list contains an item with
`item.get('id') == uid`. -/
def draftMitreHasId (d : Draft) (uid : String) : Bool :=
  (d.mitre_attack.getD []).any (fun it => it.id == some uid)

/-- The `target_source` heuristic of `verify` for an invalid id: leading
`K`/`S`/`A` means the NICE corpus; a leading `T` with a dot means a MITRE
sub-technique; a bare leading `T` is MITRE exactly when the same id sits in
the draft's `mitre_attack` list; anything else falls back to the
`mitre_attack` membership check (default NICE). -/
def classifySource (d : Draft) (uid : String) : String :=
  if strStartsWith uid "K" || strStartsWith uid "S" || strStartsWith uid "A" then
    "NICE Framework"
  else if strStartsWith uid "T" then
    if strContains uid "." then "MITRE ATT&CK"
    else if draftMitreHasId d uid then "MITRE ATT&CK" else "NICE Framework"
  else if draftMitreHasId d uid then "MITRE ATT&CK"
  else "NICE Framework"

/-- `clean_desc`: strip the boilerplate prefixes, split on whitespace, keep
words longer than 3 characters. -/
def cleanDescWords (desc : String) : List String :=
  (pySplitWS (pyReplace (pyReplace (pyReplace desc "Knowledge of" "") "Skill in" "") "Ability to" "")).filter
    (fun w => w.length > 3)

/-- One root-cause suggestion string for an invalid id, if the filtered
search produced a hit from the inferred source. -/
def suggestionFor (mitre nice : List KBEntry) (d : Draft) (uid : String) : Option String :=
  let desc := getDraftDescription d uid
  if desc == "" then none
  else
    let target := classifySource d uid
    let hits := search_knowledge_base mitre nice (cleanDescWords desc)
    let filtered := hits.filter (fun m => m.source == target)
    let filtered :=
      if target == "NICE Framework" then
        filtered.filter (fun m => m.source == "NICE Framework")
      else filtered
    match filtered with
    | [] => none
    | best :: _ =>
      some ("For invalid " ++ uid ++ " ('" ++ strTake desc 30 ++ "...'), consider "
        ++ best.entry.id ++ " (" ++ strTake (best.entry.description.getD "") 50 ++ "...)")

/-- `invalid_id_suggestions`: one suggestion per invalid id with a non-empty
drafted description and a matching filtered search hit, in invalid-id
order. -/
def invalidIdSuggestions (mitre nice : List KBEntry) (d : Draft) (invalids : List String) :
    List String :=
  invalids.filterMap (suggestionFor mitre nice d)

/-! ## `AuditorAgent.verify`: verdict handling -/

/-- The verdict returned from the `except` arm of `verify`. -/
def crashVerdict : VerdictDict :=
  ⟨some "FAIL", some "Auditor crashed. Please retry."⟩

/-- Render one general alternative:
`f"General Suggestion: {alt['id']} ({alt.get('name', alt.get('description',''))[:50]}...)"`. -/
def renderAlt (alt : TaggedEntry) : String :=
  "General Suggestion: " ++ alt.entry.id ++ " ("
    ++ strTake (match alt.entry.name with
                | some x => x
                | none => alt.entry.description.getD "") 50
    ++ "...)"

/-- The `suggestions` list built in `verify`'s enhancement block: every
root-cause suggestion, then the first four general alternatives (rendered). -/
def suggestionList (invalidSuggs : List String) (alternatives : List TaggedEntry) :
    List String :=
  invalidSuggs ++ (alternatives.take 4).map renderAlt

/-- The auto-suggest enhancement of `verify`: on a `"FAIL"` status, append
the root-cause suggestions and the first four general alternatives to the
feedback.  Mutating a missing `feedback` key raises `KeyError`, which the
surrounding `except` converts to the crash verdict. -/
def applySuggestions (v : VerdictDict) (invalidSuggs : List String)
    (alternatives : List TaggedEntry) : VerdictDict :=
  if v.status == some "FAIL" then
    if (suggestionList invalidSuggs alternatives).isEmpty then v
    else
      match v.feedback with
      | none => crashVerdict
      | some f =>
        ⟨v.status, some (f ++ "\n[AUDITOR SUGGESTIONS]:\n"
          ++ joinWith "\n" (suggestionList invalidSuggs alternatives))⟩
  else v

/-- `AuditorAgent.verify(original_input, draft_json, focus)`.  The smart
search terms and the verification model's response are oracle inputs: the
terms stand for `_generate_search_terms`' output, and the response is the
parsed verdict JSON, or a `GenFault` when the call raised or the body did
not parse. -/
def verify (mitre nice : List KBEntry) (draft : Draft) (terms : List String)
    (resp : Except GenFault VerdictDict) : VerdictDict :=
  let alternatives := search_knowledge_base mitre nice terms
  let suggs := invalidIdSuggestions mitre nice draft (verifyInvalids mitre nice draft)
  match resp with
  | .error _ => crashVerdict
  | .ok v => applySuggestions v suggs alternatives

/-- The two KB tables as they stand after one `verify` call: the general
alternatives search followed by one targeted search per invalid id with a
non-empty drafted description (the id lookups in between are pure reads). -/
def verifyKBAfter (mitre nice : List KBEntry) (draft : Draft) (terms : List String) :
    List KBEntry × List KBEntry :=
  let st := searchKBTables mitre nice terms
  (verifyInvalids mitre nice draft).foldl
    (fun st uid =>
      if getDraftDescription draft uid == "" then st
      else searchKBTables st.1 st.2 (cleanDescWords (getDraftDescription draft uid)))
    st

/-! ## `HunterAgent.generate_draft` -/

/-- `_clean_json`'s fence stripping:
`text.replace("```json", "").replace("```", "").strip()`. -/
def cleanFences (text : String) : String :=
  pyStrip (pyReplace (pyReplace text "```json" "") "```" "")

/-- `HunterAgent.generate_draft`: the generation call either raises (any
fault yields the empty dict) or returns a body; the body is fence-stripped
and parsed, and a parse failure again yields the empty dict.  The JSON
parse itself is an oracle `parse`. -/
def generate_draft (resp : Except GenFault String) (parse : String → Option Draft) : Draft :=
  match resp with
  | .error _ => Draft.empty
  | .ok text =>
    match parse (cleanFences text) with
    | none => Draft.empty
    | some d => d

/-! ## `DeepResearchSystem` (the Orchestrator) -/

/-- `_apply_focus_constraints(draft, focus)`: a falsy draft is returned as
is; focus `"mitre"` overwrites the four KSA sections with `[]`; focus
`"ksa"` overwrites `mitre_attack` with `[]`; anything else changes
nothing. -/
def applyFocus (d : Draft) (focus : String) : Draft :=
  if d.isEmpty then d
  else if focus == "mitre" then
    ⟨d.refined_text, d.mitre_attack, some [], some [], some [], some [], d.justification⟩
  else if focus == "ksa" then
    ⟨d.refined_text, some [], d.knowledge, d.skills, d.abilities, d.tasks, d.justification⟩
  else d

/-- `status = audit.get("status", "FAIL").upper()` followed by
`status == "PASS"`. -/
def treatedAsPass (audit : VerdictDict) : Bool :=
  strToUpper (audit.status.getD "FAIL") == "PASS"

/-- The feedback the Orchestrator threads to the next attempt after an
empty draft. -/
def strictJsonMsg : String :=
  "Previous JSON was invalid. Output strict JSON."

/-- The outcome of one loop iteration: early exit with the passing draft,
a skipped verification after an empty draft, or a failed audit with the
feedback to thread on. -/
inductive StepOutcome where
  | passed (d : Draft)
  | skipped (d : Draft)
  | failed (fb : String) (d : Draft)
deriving DecidableEq, Repr

/-- The feedback the iteration leaves for the next attempt (unused after a
pass because the loop breaks). -/
def StepOutcome.nextFeedback : StepOutcome → String
  | .passed _ => ""
  | .skipped _ => strictJsonMsg
  | .failed fb _ => fb

/-- One iteration of `DeepResearchSystem.run`: focus-filter the Hunter's
output, skip verification when it is falsy, otherwise verify and decide
on the upper-cased status. -/
def runStep (mitre nice : List KBEntry) (focus : String)
    (termsOf : Draft → List String) (respOf : Draft → Except GenFault VerdictDict)
    (hunterOut : Draft) : StepOutcome :=
  let draft := applyFocus hunterOut focus
  if draft.isEmpty then .skipped draft
  else
    let audit := verify mitre nice draft (termsOf draft) (respOf draft)
    if treatedAsPass audit then .passed draft
    else .failed (audit.feedback.getD "") draft

/-- The oracles one `run` consumes, indexed by the attempt number: the
Hunter's parsed draft for a given feedback string, the Auditor's generated
search terms, and the Auditor model's verdict response. -/
structure LoopOracles where
  hunter : Nat → String → Draft
  terms : Nat → Draft → List String
  verdictResp : Nat → Draft → Except GenFault VerdictDict

/-- The loop's observable result: the `draft` variable at exit, the
`final_output` variable (set only by a pass), and the number of iterations
executed. -/
structure RunAcc where
  last : Draft
  final : Option Draft
  iters : Nat
deriving DecidableEq, Repr

/-- The `for i in range(1, MAX_LOOPS + 1)` loop of `run`, with explicit
fuel, attempt index, threaded feedback and last draft. -/
def runLoop (O : LoopOracles) (mitre nice : List KBEntry) (focus : String) :
    Nat → Nat → String → Draft → RunAcc
  | 0, _, _, last => ⟨last, none, 0⟩
  | fuel + 1, i, fb, _ =>
    match runStep mitre nice focus (O.terms i) (O.verdictResp i) (O.hunter i fb) with
    | .passed d => ⟨d, some d, 1⟩
    | .skipped d =>
      let r := runLoop O mitre nice focus fuel (i + 1) strictJsonMsg d
      ⟨r.last, r.final, r.iters + 1⟩
    | .failed fb2 d =>
      let r := runLoop O mitre nice focus fuel (i + 1) fb2 d
      ⟨r.last, r.final, r.iters + 1⟩

/-- `DeepResearchSystem.run`, as the record handed to `_print_report`:
the passing draft, or — after `if not final_output` — the last drafted
candidate. -/
def run (O : LoopOracles) (mitre nice : List KBEntry) (focus : String) : Draft :=
  let r := runLoop O mitre nice focus MAX_LOOPS 1 "" Draft.empty
  r.final.getD r.last

/-! ## Generic helper lemmas -/

/-- A fold whose step never changes the accumulator returns the initial
accumulator. -/
theorem foldl_fixed {α β : Type} (f : β → α → β) (h : ∀ st x, f st x = st) :
    ∀ (l : List α) (st : β), l.foldl f st = st
  | [], _ => rfl
  | x :: xs, st => by rw [List.foldl_cons, h]; exact foldl_fixed f h xs st

/-- The state component of `searchDatasetSt` re-emits the table unchanged. -/
theorem searchDatasetSt_state (terms : List String) (src : String) :
    ∀ l : List KBEntry, (searchDatasetSt terms src l).2 = l
  | [] => rfl
  | item :: rest => by
    show item :: (searchDatasetSt terms src rest).2 = item :: rest
    rw [searchDatasetSt_state terms src rest]

/-- `searchKBTables` returns its tables unchanged (the early-exit branches
do so trivially; the search branch by `searchDatasetSt_state`). -/
theorem searchKBTables_eq (mitre nice : List KBEntry) (q : List String) :
    searchKBTables mitre nice q = (mitre, nice) := by
  unfold searchKBTables
  split
  · rfl
  · split
    · rfl
    · rw [searchDatasetSt_state, searchDatasetSt_state]

/-- `applySuggestions` never changes the verdict's status: the enhancement
only rewrites the feedback, and the `KeyError` crash path starts from a
`"FAIL"` status and ends at one. -/
theorem applySuggestions_status (v : VerdictDict) (s : List String) (a : List TaggedEntry) :
    (applySuggestions v s a).status = v.status := by
  unfold applySuggestions
  split
  case isTrue h =>
    split
    case isTrue he => rfl
    case isFalse he =>
      cases hf : v.feedback
      case none =>
        show crashVerdict.status = v.status
        exact (eq_of_beq h).symm
      case some f => rfl
  case isFalse h => rfl

/-- A faulted or unparseable verdict request yields the crash verdict. -/
theorem verify_fault (mitre nice : List KBEntry) (d : Draft) (terms : List String)
    (f : GenFault) : verify mitre nice d terms (.error f) = crashVerdict := rfl

/-- On a parsed verdict, `verify` returns it with only the feedback possibly
rewritten. -/
theorem verify_ok_status (mitre nice : List KBEntry) (d : Draft) (terms : List String)
    (v : VerdictDict) : (verify mitre nice d terms (.ok v)).status = v.status :=
  applySuggestions_status ..

/-- The Orchestrator's pass test commutes with `verify`'s feedback
enhancement. -/
theorem treatedAsPass_verify_ok (mitre nice : List KBEntry) (d : Draft)
    (terms : List String) (v : VerdictDict) :
    treatedAsPass (verify mitre nice d terms (.ok v)) = treatedAsPass v := by
  unfold treatedAsPass
  rw [verify_ok_status]

/-- A section of the candidate record is empty: the key is absent or holds
the empty list. -/
def sectionEmpty (o : Option (List RefItem)) : Bool :=
  (o.getD []).isEmpty

/-- C6: Focus filtering is a function of the candidate and the focus mode
only: technique-only focus (`"mitre"`) yields a record whose knowledge,
skills, abilities and tasks sections are all empty; KSA-only focus
(`"ksa"`) yields a record whose `mitre_attack` section is empty; `"both"`
leaves the record unchanged; sections are cleared in their entirety. -/
theorem C6_focus_isolation (d : Draft) :
    sectionEmpty (applyFocus d "mitre").knowledge = true ∧
    sectionEmpty (applyFocus d "mitre").skills = true ∧
    sectionEmpty (applyFocus d "mitre").abilities = true ∧
    sectionEmpty (applyFocus d "mitre").tasks = true ∧
    sectionEmpty (applyFocus d "ksa").mitre_attack = true ∧
    applyFocus d "both" = d := by
  have c1 : (("mitre" : String) == "mitre") = true := by decide
  have c2 : (("ksa" : String) == "mitre") = false := by decide
  have c3 : (("ksa" : String) == "ksa") = true := by decide
  have c4 : (("both" : String) == "mitre") = false := by decide
  have c5 : (("both" : String) == "ksa") = false := by decide
  unfold applyFocus
  by_cases h : d.isEmpty = true
  · have h' := h
    simp only [Draft.isEmpty, Bool.and_eq_true, Option.isNone_iff_eq_none] at h'
    obtain ⟨⟨⟨⟨⟨⟨-, h2⟩, h3⟩, h4⟩, h5⟩, h6⟩, -⟩ := h'
    simp [h, sectionEmpty, h2, h3, h4, h5, h6]
  · rw [Bool.not_eq_true] at h
    simp [h, sectionEmpty, c1, c2, c3, c4, c5]

/-- C7: a transport/service fault of the verdict request, or a response
that fails to parse, makes `verify` return the fixed crash verdict: a
`FAIL` status (never `PASS`) with feedback saying the Auditor itself
crashed and should be retried. -/
theorem C7_verifier_conservative_failure (f : GenFault) (mitre nice : List KBEntry)
    (d : Draft) (terms : List String) :
    verify mitre nice d terms (.error f) = crashVerdict ∧
    crashVerdict.status = some "FAIL" ∧
    crashVerdict.feedback = some "Auditor crashed. Please retry." ∧
    crashVerdict.status ≠ some "PASS" := by
  exact ⟨rfl, rfl, rfl, by decide⟩

/-- C9: one `verify` call — the general keyword search plus the targeted
per-invalid-id searches, tagging included — leaves both KB tables
element-wise unchanged, and so does a bare `_search_knowledge_base` call. -/
theorem C9_kb_tables_immutable (mitre nice : List KBEntry) (d : Draft)
    (terms q : List String) :
    searchKBTables mitre nice q = (mitre, nice) ∧
    verifyKBAfter mitre nice d terms = (mitre, nice) := by
  refine ⟨searchKBTables_eq .., ?_⟩
  unfold verifyKBAfter
  rw [searchKBTables_eq]
  apply foldl_fixed
  intro st uid
  split
  · rfl
  · rw [searchKBTables_eq]

/-! ## Single-character prefix facts (for the id classifier) -/

/-- A single-character prefix test on a non-empty string only looks at the
head character. -/
theorem startsWith_single {s p : String} {a : Char} (hp : p.toList = [a])
    {c : Char} {cs : List Char} (hcs : s.toList = c :: cs) :
    strStartsWith s p = (a == c) := by
  unfold strStartsWith
  rw [hp, hcs]
  simp [isPrefixOfB]

/-- A single-character prefix test on the empty string is false. -/
theorem startsWith_single_nil {s p : String} {a : Char} (hp : p.toList = [a])
    (hcs : s.toList = []) : strStartsWith s p = false := by
  unfold strStartsWith
  rw [hp, hcs]
  rfl

/-- C4: the root-cause classifier maps an invalid id with a leading `K`,
`S` or `A` to the KSA (NICE) corpus; a leading-`T` id containing a `.` to
the technique (MITRE) corpus; and a bare leading-`T` id to the technique
corpus exactly when the same id appears in the candidate's `mitre_attack`
reference list, and otherwise to the KSA corpus. -/
theorem C4_root_cause_classification (d : Draft) (uid : String) :
    ((strStartsWith uid "K" = true ∨ strStartsWith uid "S" = true
        ∨ strStartsWith uid "A" = true) →
      classifySource d uid = "NICE Framework") ∧
    (strStartsWith uid "T" = true → strContains uid "." = true →
      classifySource d uid = "MITRE ATT&CK") ∧
    (strStartsWith uid "T" = true → strContains uid "." = false →
      (classifySource d uid = "MITRE ATT&CK" ↔ draftMitreHasId d uid = true)) := by
  have hKSA : ∀ h : strStartsWith uid "K" = true ∨ strStartsWith uid "S" = true
      ∨ strStartsWith uid "A" = true, classifySource d uid = "NICE Framework" := by
    intro h
    rcases h with h | h | h <;> simp [classifySource, h]
  refine ⟨hKSA, ?_, ?_⟩
  all_goals intro hT hdot
  all_goals
    obtain ⟨c, cs, hcs⟩ : ∃ c cs, uid.toList = c :: cs := by
      cases hcs : uid.toList with
      | nil => rw [startsWith_single_nil rfl hcs] at hT; exact absurd hT (by simp)
      | cons c cs => exact ⟨c, cs, rfl⟩
  all_goals
    rw [startsWith_single rfl hcs] at hT
    have hc : c = 'T' := (eq_of_beq hT).symm
    subst hc
    have hK : strStartsWith uid "K" = false := by rw [startsWith_single rfl hcs]; decide
    have hS : strStartsWith uid "S" = false := by rw [startsWith_single rfl hcs]; decide
    have hA : strStartsWith uid "A" = false := by rw [startsWith_single rfl hcs]; decide
    have hT' : strStartsWith uid "T" = true := by rw [startsWith_single rfl hcs]; decide
  · simp [classifySource, hK, hS, hA, hT', hdot]
  · cases hm : draftMitreHasId d uid <;>
      simp [classifySource, hK, hS, hA, hT', hdot, hm]

/-- C4 witness data: a candidate whose technique list carries `T1059`. -/
def dC4 : Draft :=
  ⟨some "summary", some [⟨some "T1059", some "Command and Scripting Interpreter", none⟩],
    none, none, none, none, none⟩

/-- C4 witness: the classifier evaluated on representative concrete ids. -/
theorem C4_root_cause_classification_witness :
    classifySource dC4 "K0001" = "NICE Framework" ∧
    classifySource dC4 "T1059.001" = "MITRE ATT&CK" ∧
    classifySource dC4 "T1059" = "MITRE ATT&CK" :=
  ⟨(C4_root_cause_classification dC4 "K0001").1 (Or.inl (by decide)),
    (C4_root_cause_classification dC4 "T1059.001").2.1 (by decide) (by decide),
    ((C4_root_cause_classification dC4 "T1059").2.2 (by decide) (by decide)).mpr (by decide)⟩

/-! ## Orchestrator-level claims -/

/-- The empty draft stays empty under focus filtering. -/
theorem applyFocus_empty (focus : String) : applyFocus Draft.empty focus = Draft.empty := by
  unfold applyFocus
  rw [if_pos (show Draft.empty.isEmpty = true from rfl)]

/-- C10: the loop treats a verdict as a pass exactly when the upper-cased
`status` equals `"PASS"`; a missing `status` defaults to `"FAIL"` and
causes a retry; a lower-case `"pass"` terminates the loop as a pass. -/
theorem C10_pass_decision (m n : List KBEntry) (focus : String)
    (termsOf : Draft → List String) (hunterOut : Draft) (v : VerdictDict)
    (h : (applyFocus hunterOut focus).isEmpty = false) :
    (runStep m n focus termsOf (fun _ => .ok v) hunterOut
        = .passed (applyFocus hunterOut focus)
      ↔ strToUpper (v.status.getD "FAIL") = "PASS") ∧
    (v.status = none →
      runStep m n focus termsOf (fun _ => .ok v) hunterOut
        = .failed ((verify m n (applyFocus hunterOut focus)
              (termsOf (applyFocus hunterOut focus)) (.ok v)).feedback.getD "")
            (applyFocus hunterOut focus)) ∧
    (v.status = some "pass" →
      runStep m n focus termsOf (fun _ => .ok v) hunterOut
        = .passed (applyFocus hunterOut focus)) := by
  have hstep : runStep m n focus termsOf (fun _ => .ok v) hunterOut
      = if treatedAsPass v then .passed (applyFocus hunterOut focus)
        else .failed ((verify m n (applyFocus hunterOut focus)
            (termsOf (applyFocus hunterOut focus)) (.ok v)).feedback.getD "")
          (applyFocus hunterOut focus) := by
    simp only [runStep]
    rw [h, if_neg Bool.false_ne_true, treatedAsPass_verify_ok]
  have hiff : treatedAsPass v = true ↔ strToUpper (v.status.getD "FAIL") = "PASS" := by
    unfold treatedAsPass
    exact beq_iff_eq ..
  refine ⟨?_, ?_, ?_⟩
  · rw [hstep]
    by_cases hp : treatedAsPass v = true
    · rw [if_pos hp]
      simp [hiff.mp hp]
    · rw [if_neg hp]
      constructor
      · intro hc; exact absurd hc (by simp)
      · intro hu; exact absurd (hiff.mpr hu) hp
  · intro hn
    have hf : treatedAsPass v = false := by unfold treatedAsPass; rw [hn]; decide
    rw [hstep, if_neg (by rw [hf]; exact Bool.false_ne_true)]
  · intro hp'
    have ht : treatedAsPass v = true := by unfold treatedAsPass; rw [hp']; decide
    rw [hstep, if_pos ht]

/-- C10 witness data: a truthy draft (one populated key). -/
def dW10 : Draft := ⟨some "summary", none, none, none, none, none, none⟩

/-- C10 witness: a lower-case `"pass"` verdict terminates the iteration as
a pass. -/
theorem C10_pass_decision_witness :
    runStep [] [] "both" (fun _ => []) (fun _ => .ok ⟨some "pass", some ""⟩) dW10
      = .passed (applyFocus dW10 "both") :=
  (C10_pass_decision [] [] "both" (fun _ => []) dW10 ⟨some "pass", some ""⟩ (by decide)).2.2 rfl

/-- C8: a transport fault of the Drafter's generation call, or a response
that fails to parse after fence stripping, makes `generate_draft` return
the empty record; the Orchestrator then skips verification for that
iteration (the step result does not depend on the Auditor oracle) and the
feedback for the next attempt is the strict-JSON instruction. -/
theorem C8_drafting_failure_recovery (p : String → Option Draft) (text : String)
    (m n : List KBEntry) (focus : String) (termsOf : Draft → List String)
    (respOf respOf2 : Draft → Except GenFault VerdictDict) :
    (∀ f : GenFault, generate_draft (.error f) p = Draft.empty) ∧
    (p (cleanFences text) = none → generate_draft (.ok text) p = Draft.empty) ∧
    runStep m n focus termsOf respOf Draft.empty
      = runStep m n focus termsOf respOf2 Draft.empty ∧
    runStep m n focus termsOf respOf Draft.empty = .skipped Draft.empty ∧
    (runStep m n focus termsOf respOf Draft.empty).nextFeedback
      = "Previous JSON was invalid. Output strict JSON." := by
  have hskip : ∀ r : Draft → Except GenFault VerdictDict,
      runStep m n focus termsOf r Draft.empty = .skipped Draft.empty := by
    intro r
    simp only [runStep, applyFocus_empty]
    rw [if_pos (show Draft.empty.isEmpty = true from rfl)]
  refine ⟨fun _ => rfl, ?_, (hskip respOf).trans (hskip respOf2).symm, hskip respOf, ?_⟩
  · intro hp
    simp only [generate_draft]
    rw [hp]
  · rw [hskip respOf]
    rfl

/-- C8 witness: a plain-prose response (no JSON) yields the empty record,
and the iteration on an empty record is skipped with the strict-JSON
feedback, for any Auditor behaviour. -/
theorem C8_drafting_failure_recovery_witness :
    generate_draft (.ok "It was just a phishing email, nothing else.") (fun _ => none)
      = Draft.empty ∧
    runStep [] [] "both" (fun _ => []) (fun _ => .ok ⟨some "PASS", some ""⟩) Draft.empty
      = .skipped Draft.empty ∧
    (runStep [] [] "both" (fun _ => []) (fun _ => .ok ⟨some "PASS", some ""⟩)
        Draft.empty).nextFeedback
      = "Previous JSON was invalid. Output strict JSON." :=
  have h := C8_drafting_failure_recovery (fun _ => none)
    "It was just a phishing email, nothing else." [] [] "both" (fun _ => [])
    (fun _ => .ok ⟨some "PASS", some ""⟩) (fun _ => .ok ⟨some "FAIL", none⟩)
  ⟨h.2.1 rfl, h.2.2.2.1, h.2.2.2.2⟩

/-! ## Suggestion injection (claim C5) -/

/-- A `FAIL` verdict as the model returns it, before suggestion injection. -/
def vC5 : VerdictDict := ⟨some "FAIL", some "Invalid IDs found."⟩

/-- A root-cause suggestion that already names the KB entry `T1190`. -/
def covSuggC5 : String :=
  "For invalid T9999 ('a fake technique...'), consider T1190 (Adversaries may attempt to exploit a weakness...)"

/-- A general keyword-search alternative whose id, `T1190`, is already
covered by `covSuggC5`, and which carries both a name and a description. -/
def altC5 : TaggedEntry :=
  ⟨⟨"T1190", some "Exploit Public-Facing Application",
    some "Adversaries may attempt to exploit a weakness", none, none⟩, "MITRE ATT&CK"⟩

set_option maxRecDepth 4096 in
/-- C5 counterexample: the code appends the general alternative `T1190`
to the feedback even though the root-cause suggestion already covers that
same id (no covered-id filter exists), and the rendering uses the entry's
name rather than its description. -/
theorem C5_counterexample :
    strContains covSuggC5 "T1190" = true ∧
    (applySuggestions vC5 [covSuggC5] [altC5]).feedback
      = some ("Invalid IDs found.\n[AUDITOR SUGGESTIONS]:\n" ++ covSuggC5
          ++ "\nGeneral Suggestion: T1190 (Exploit Public-Facing Application...)") := by
  constructor
  · decide
  · decide

/-- C5 (amended): on a parsed `"FAIL"` verdict with a feedback string, the
feedback threaded onward is the verdict's feedback with the
`[AUDITOR SUGGESTIONS]` block appended, containing, in order, every
root-cause suggestion and then the first four general keyword-search
alternatives (no filtering against the root-cause suggestions), each
rendered from the entry's name when present and its description otherwise;
nothing is appended when both lists are empty or when the status is
`"PASS"`. -/
theorem C5_suggestion_injection (m n : List KBEntry) (d : Draft) (terms : List String)
    (v : VerdictDict) :
    (v.status = some "PASS" → verify m n d terms (.ok v) = v) ∧
    (∀ f, v.status = some "FAIL" → v.feedback = some f →
      (verify m n d terms (.ok v)).feedback
        = some (if (suggestionList
              (invalidIdSuggestions m n d (verifyInvalids m n d))
              (search_knowledge_base m n terms)).isEmpty then f
            else f ++ "\n[AUDITOR SUGGESTIONS]:\n"
              ++ joinWith "\n" (suggestionList
                  (invalidIdSuggestions m n d (verifyInvalids m n d))
                  (search_knowledge_base m n terms)))) := by
  constructor
  · intro hs
    show applySuggestions v (invalidIdSuggestions m n d (verifyInvalids m n d))
        (search_knowledge_base m n terms) = v
    unfold applySuggestions
    rw [hs]
    rw [if_neg (by decide)]
  · intro f hs hf
    show (applySuggestions v (invalidIdSuggestions m n d (verifyInvalids m n d))
        (search_knowledge_base m n terms)).feedback = _
    unfold applySuggestions
    rw [hs, hf]
    by_cases he : (suggestionList (invalidIdSuggestions m n d (verifyInvalids m n d))
        (search_knowledge_base m n terms)).isEmpty = true
    · rw [if_pos (by decide), if_pos he, if_pos he]
      exact hf
    · rw [if_pos (by decide), if_neg he, if_neg he]

/-- C5 witness: with no invalid ids and no alternatives, a `FAIL` verdict's
feedback passes through unchanged. -/
theorem C5_suggestion_injection_witness :
    (verify [] [] Draft.empty [] (.ok ⟨some "FAIL", some "Fix the ids."⟩)).feedback
      = some "Fix the ids." := by
  have h := (C5_suggestion_injection [] [] Draft.empty []
    ⟨some "FAIL", some "Fix the ids."⟩).2 "Fix the ids." rfl rfl
  rw [h]
  decide


/-! ## Claim C3: the keyword search refines the spec's description

The spec side states the ranked search in its own words: score every entry,
keep the positive scores, put them in stable descending order — rendered
here as the concatenation of the equal-score groups from the highest score
down, each group in original table order —, truncate to 20 per table, and
list technique-table hits before role-table hits. -/

/-- The highest score among the hits (0 when there are none). -/
def maxScore (l : List (Nat × TaggedEntry)) : Nat :=
  l.foldr (fun p acc => max p.1 acc) 0

/-- Concatenate the score-`s` group, then the score-`s-1` group, and so on
down to score 0, each group in the original order of `l`. -/
def bucketsDown (l : List (Nat × TaggedEntry)) : Nat → List (Nat × TaggedEntry)
  | 0 => l.filter (fun p => p.1 == 0)
  | s + 1 => l.filter (fun p => p.1 == s + 1) ++ bucketsDown l s

/-- Stable descending order by score, as the spec words it: ties keep the
original table order. -/
def specStableSortDesc (l : List (Nat × TaggedEntry)) : List (Nat × TaggedEntry) :=
  bucketsDown l (maxScore l)

/-- The KB keyword search as the spec describes it. -/
def spec_search (mitre nice : List KBEntry) (queryTerms : List String) : List TaggedEntry :=
  ((specStableSortDesc ((mitre.map
        (fun e => (entryScore (filterTerms queryTerms) e, TaggedEntry.mk e "MITRE ATT&CK"))).filter
      (fun p => 0 < p.1))).take 20).map Prod.snd
    ++ ((specStableSortDesc ((nice.map
        (fun e => (entryScore (filterTerms queryTerms) e, TaggedEntry.mk e "NICE Framework"))).filter
      (fun p => 0 < p.1))).take 20).map Prod.snd

theorem insertDesc_cons (x y : Nat × TaggedEntry) (ys : List (Nat × TaggedEntry)) :
    insertDesc x (y :: ys) = if y.1 < x.1 then x :: y :: ys else y :: insertDesc x ys := rfl

theorem bucketsDown_zero (l : List (Nat × TaggedEntry)) :
    bucketsDown l 0 = l.filter (fun p => p.1 == 0) := rfl

theorem bucketsDown_succ (l : List (Nat × TaggedEntry)) (s : Nat) :
    bucketsDown l (s + 1) = l.filter (fun p => p.1 == s + 1) ++ bucketsDown l s := rfl

theorem insertDesc_ge (x : Nat × TaggedEntry) :
    ∀ L : List (Nat × TaggedEntry), (∀ y ∈ L, ¬(y.1 < x.1)) → insertDesc x L = L ++ [x]
  | [], _ => rfl
  | y :: ys, h => by
    unfold insertDesc
    rw [if_neg (h y (List.mem_cons_self ..)), insertDesc_ge x ys
      (fun z hz => h z (List.mem_cons_of_mem _ hz))]
    rfl

theorem insertDesc_lt (x : Nat × TaggedEntry) :
    ∀ L : List (Nat × TaggedEntry), (∀ y ∈ L, y.1 < x.1) → insertDesc x L = x :: L
  | [], _ => rfl
  | y :: ys, h => by
    unfold insertDesc
    rw [if_pos (h y (List.mem_cons_self ..))]

theorem insertDesc_append_ge (x : Nat × TaggedEntry) :
    ∀ L1 L2 : List (Nat × TaggedEntry), (∀ y ∈ L1, ¬(y.1 < x.1)) →
      insertDesc x (L1 ++ L2) = L1 ++ insertDesc x L2
  | [], _, _ => rfl
  | y :: ys, L2, h => by
    show insertDesc x (y :: (ys ++ L2)) = y :: (ys ++ insertDesc x L2)
    rw [insertDesc_cons, if_neg (h y (List.mem_cons_self ..)), insertDesc_append_ge x ys L2
      (fun z hz => h z (List.mem_cons_of_mem _ hz))]

theorem filter_single_pos {k : Nat} {x : Nat × TaggedEntry}
    (h : x.1 = k) : List.filter (fun p => p.1 == k) [x] = [x] := by
  rw [List.filter_cons, if_pos (by simp [h]), List.filter_nil]

theorem filter_single_neg {k : Nat} {x : Nat × TaggedEntry}
    (h : x.1 ≠ k) : List.filter (fun p => p.1 == k) [x] = [] := by
  rw [List.filter_cons, if_neg (by simp [h]), List.filter_nil]

theorem score_eq_of_mem_filter {k : Nat} {l : List (Nat × TaggedEntry)}
    {y : Nat × TaggedEntry} (h : y ∈ List.filter (fun p => p.1 == k) l) : y.1 = k := by
  have := (List.mem_filter.mp h).2
  exact beq_iff_eq.mp this

theorem mem_bucketsDown_le (l : List (Nat × TaggedEntry)) :
    ∀ (s : Nat) (y : Nat × TaggedEntry), y ∈ bucketsDown l s → y.1 ≤ s
  | 0, y, h => by
    have := score_eq_of_mem_filter h
    omega
  | s + 1, y, h => by
    rcases List.mem_append.mp h with h1 | h2
    · have := score_eq_of_mem_filter h1
      omega
    · have := mem_bucketsDown_le l s y h2
      omega

theorem bucketsDown_snoc_gt (l : List (Nat × TaggedEntry)) (x : Nat × TaggedEntry) :
    ∀ s : Nat, s < x.1 → bucketsDown (l ++ [x]) s = bucketsDown l s
  | 0, h => by
    rw [bucketsDown_zero, bucketsDown_zero, List.filter_append,
      filter_single_neg (by omega : x.1 ≠ 0), List.append_nil]
  | s + 1, h => by
    rw [bucketsDown_succ, bucketsDown_succ, List.filter_append,
      filter_single_neg (by omega : x.1 ≠ s + 1),
      List.append_nil, bucketsDown_snoc_gt l x s (by omega)]

theorem bucketsDown_snoc_le (l : List (Nat × TaggedEntry)) (x : Nat × TaggedEntry) :
    ∀ s : Nat, x.1 ≤ s → bucketsDown (l ++ [x]) s = insertDesc x (bucketsDown l s)
  | 0, h => by
    rw [bucketsDown_zero, bucketsDown_zero, List.filter_append,
      filter_single_pos (by omega : x.1 = 0),
      insertDesc_ge x _ (fun y hy => by have := score_eq_of_mem_filter hy; omega)]
  | s + 1, h => by
    by_cases hx1 : x.1 = s + 1
    · rw [bucketsDown_succ, bucketsDown_succ, List.filter_append,
        bucketsDown_snoc_gt l x s (by omega),
        filter_single_pos hx1,
        insertDesc_append_ge x _ _
          (fun y hy => by have := score_eq_of_mem_filter hy; omega),
        insertDesc_lt x _
          (fun y hy => by have := mem_bucketsDown_le l s y hy; omega),
        List.append_assoc]
      rfl
    · have hxs : x.1 ≤ s := by omega
      rw [bucketsDown_succ, bucketsDown_succ, List.filter_append,
        filter_single_neg (by omega : x.1 ≠ s + 1),
        List.append_nil, bucketsDown_snoc_le l x s hxs,
        insertDesc_append_ge x _ _
          (fun y hy => by have := score_eq_of_mem_filter hy; omega)]

theorem mem_le_maxScore : ∀ (l : List (Nat × TaggedEntry)) (y : Nat × TaggedEntry),
    y ∈ l → y.1 ≤ maxScore l
  | [], y, h => absurd h (List.not_mem_nil y)
  | p :: l, y, h => by
    show y.1 ≤ max p.1 (maxScore l)
    rcases List.mem_cons.mp h with h1 | h2
    · subst h1; omega
    · have := mem_le_maxScore l y h2
      omega

theorem bucketsDown_pad (l : List (Nat × TaggedEntry)) (s : Nat)
    (hs : ∀ y ∈ l, y.1 ≤ s) : ∀ k : Nat, bucketsDown l (s + k) = bucketsDown l s
  | 0 => rfl
  | k + 1 => by
    show bucketsDown l (s + k + 1) = bucketsDown l s
    have hnil : List.filter (fun p => p.1 == s + k + 1) l = [] := by
      apply List.filter_eq_nil_iff.mpr
      intro a ha
      have h1 := hs a ha
      simp only [beq_iff_eq]
      omega
    rw [bucketsDown_succ, hnil, List.nil_append, bucketsDown_pad l s hs k]

theorem maxScore_snoc (x : Nat × TaggedEntry) :
    ∀ l : List (Nat × TaggedEntry), maxScore (l ++ [x]) = max (maxScore l) x.1
  | [] => by
    show max x.1 0 = max 0 x.1
    omega
  | p :: l => by
    show max p.1 (maxScore (l ++ [x])) = max (max p.1 (maxScore l)) x.1
    rw [maxScore_snoc x l]
    omega

/-- The insertion-sort rendering of Python's stable `sort(reverse=True)`
agrees with the spec's bucket characterisation. -/
theorem sortDesc_eq_spec (l : List (Nat × TaggedEntry)) :
    sortDesc l = specStableSortDesc l := by
  induction l using List.reverseRecOn with
  | nil => rfl
  | append_singleton l x ih =>
    have hfold : sortDesc (l ++ [x]) = insertDesc x (sortDesc l) := by
      unfold sortDesc
      rw [List.foldl_append]
      rfl
    rw [hfold, ih]
    unfold specStableSortDesc
    rw [maxScore_snoc x l,
      bucketsDown_snoc_le l x (max (maxScore l) x.1) (by omega)]
    congr 1
    have hpad := bucketsDown_pad l (maxScore l) (fun y hy => mem_le_maxScore l y hy)
      (max (maxScore l) x.1 - maxScore l)
    rw [show maxScore l + (max (maxScore l) x.1 - maxScore l) = max (maxScore l) x.1
      by omega] at hpad
    rw [hpad]

/-- The hit list of one table traversal is the score-positive filter of the
scored, tagged table, in table order. -/
theorem searchDatasetSt_hits (terms : List String) (src : String) :
    ∀ l : List KBEntry,
      (searchDatasetSt terms src l).1
        = (l.map (fun e => (entryScore terms e, TaggedEntry.mk e src))).filter
            (fun p => 0 < p.1)
  | [] => rfl
  | item :: rest => by
    show (if 0 < entryScore terms item
        then (entryScore terms item, TaggedEntry.mk item src) :: (searchDatasetSt terms src rest).1
        else (searchDatasetSt terms src rest).1) = _
    rw [List.map_cons, List.filter_cons, searchDatasetSt_hits terms src rest]
    by_cases h : 0 < entryScore terms item
    · rw [if_pos h, if_pos (by simpa using h)]
    · rw [if_neg h, if_neg (by simpa using h)]

/-- C3: for every pair of KB tables and every query token list, the KB
keyword search scores each entry as the count of filtered tokens
(lower-cased, longer than 3, stop-words removed) occurring in its
name/description plus type, keeps exactly the positive scores, sorts each
table's hits stably by descending score, truncates to 20 per table, tags
each hit with its source, and concatenates technique hits before role
hits — i.e. it equals the spec-described search. -/
theorem C3_search_refines_spec (mitre nice : List KBEntry) (q : List String) :
    search_knowledge_base mitre nice q = spec_search mitre nice q := by
  unfold search_knowledge_base spec_search
  by_cases hmn : (mitre.isEmpty && nice.isEmpty) = true
  · rw [if_pos hmn]
    rw [Bool.and_eq_true] at hmn
    obtain ⟨hm, hn⟩ := hmn
    rw [List.isEmpty_iff.mp hm, List.isEmpty_iff.mp hn]
    rfl
  · rw [if_neg hmn]
    by_cases ht : (filterTerms q).isEmpty = true
    · rw [if_pos ht, List.isEmpty_iff.mp ht]
      have hz : ∀ (l : List KBEntry) (src : String),
          ((l.map (fun e => (entryScore ([] : List String) e, TaggedEntry.mk e src))).filter
            (fun p => 0 < p.1)) = [] := by
        intro l src
        apply List.filter_eq_nil_iff.mpr
        intro a ha
        obtain ⟨e, _, rfl⟩ := List.mem_map.mp ha
        simp [entryScore]
      rw [hz, hz]
      rfl
    · rw [if_neg ht, searchDatasetSt_hits, searchDatasetSt_hits,
        sortDesc_eq_spec, sortDesc_eq_spec]

/-! ## The retry loop: claims C1 and C2 -/

theorem treatedAsPass_crash : treatedAsPass crashVerdict = false := by decide

/-- Anatomy of a passing iteration: the passing draft is the focus-filtered
Hunter output, it is truthy, and the verify result passed the status
test. -/
theorem runStep_passed {m n : List KBEntry} {focus : String}
    {termsOf : Draft → List String} {respOf : Draft → Except GenFault VerdictDict}
    {h d : Draft}
    (hstep : runStep m n focus termsOf respOf h = .passed d) :
    d = applyFocus h focus ∧ (applyFocus h focus).isEmpty = false ∧
      treatedAsPass (verify m n (applyFocus h focus) (termsOf (applyFocus h focus))
        (respOf (applyFocus h focus))) = true := by
  simp only [runStep] at hstep
  split at hstep
  · exact absurd hstep (by simp)
  · rename_i hempty
    split at hstep
    · rename_i hpass
      injection hstep with hd
      exact ⟨hd.symm, Bool.not_eq_true _ ▸ hempty, hpass⟩
    · exact absurd hstep (by simp)

/-- One unfolding step of the loop. -/
theorem runLoop_succ (O : LoopOracles) (m n : List KBEntry) (focus : String)
    (fuel i : Nat) (fb : String) (last : Draft) :
    runLoop O m n focus (fuel + 1) i fb last
      = match runStep m n focus (O.terms i) (O.verdictResp i) (O.hunter i fb) with
        | .passed d => ⟨d, some d, 1⟩
        | .skipped d =>
          let r := runLoop O m n focus fuel (i + 1) strictJsonMsg d
          ⟨r.last, r.final, r.iters + 1⟩
        | .failed fb2 d =>
          let r := runLoop O m n focus fuel (i + 1) fb2 d
          ⟨r.last, r.final, r.iters + 1⟩ := rfl

/-- The loop executes at most `fuel` iterations. -/
theorem runLoop_iters_le (O : LoopOracles) (m n : List KBEntry) (focus : String) :
    ∀ (fuel i : Nat) (fb : String) (last : Draft),
      (runLoop O m n focus fuel i fb last).iters ≤ fuel
  | 0, _, _, _ => Nat.le_refl 0
  | fuel + 1, i, fb, last => by
    rw [runLoop_succ]
    cases hstep : runStep m n focus (O.terms i) (O.verdictResp i) (O.hunter i fb) with
    | passed d => simp
    | skipped d =>
      have := runLoop_iters_le O m n focus fuel (i + 1) strictJsonMsg d
      simpa using this
    | failed fb2 d =>
      have := runLoop_iters_le O m n focus fuel (i + 1) fb2 d
      simpa using this

/-- A recorded final output is always a truthy draft. -/
theorem runLoop_final_nonempty (O : LoopOracles) (m n : List KBEntry) (focus : String) :
    ∀ (fuel i : Nat) (fb : String) (last : Draft) (d : Draft),
      (runLoop O m n focus fuel i fb last).final = some d → d.isEmpty = false
  | 0, i, fb, last, d, h => by
    rw [show (runLoop O m n focus 0 i fb last).final = none from rfl] at h
    exact Option.noConfusion h
  | fuel + 1, i, fb, last, d, h => by
    rw [runLoop_succ] at h
    cases hstep : runStep m n focus (O.terms i) (O.verdictResp i) (O.hunter i fb) with
    | passed dd =>
      rw [hstep] at h
      simp only at h
      obtain rfl : dd = d := by exact Option.some.inj h
      obtain ⟨rfl, hne, -⟩ := runStep_passed hstep
      exact hne
    | skipped dd =>
      rw [hstep] at h
      simp only at h
      exact runLoop_final_nonempty O m n focus fuel (i + 1) strictJsonMsg dd d h
    | failed fb2 dd =>
      rw [hstep] at h
      simp only at h
      exact runLoop_final_nonempty O m n focus fuel (i + 1) fb2 dd d h

/-- If the verdict oracle's `PASS` answers only ever come for drafts with
no invalid ids, then any recorded final output has no invalid ids. -/
theorem runLoop_pass_no_invalids (O : LoopOracles) (m n : List KBEntry) (focus : String)
    (H : ∀ (i : Nat) (d : Draft) (v : VerdictDict), O.verdictResp i d = .ok v →
      treatedAsPass v = true → verifyInvalids m n d = []) :
    ∀ (fuel i : Nat) (fb : String) (last : Draft) (d : Draft),
      (runLoop O m n focus fuel i fb last).final = some d → verifyInvalids m n d = []
  | 0, i, fb, last, d, h => by
    rw [show (runLoop O m n focus 0 i fb last).final = none from rfl] at h
    exact Option.noConfusion h
  | fuel + 1, i, fb, last, d, h => by
    rw [runLoop_succ] at h
    cases hstep : runStep m n focus (O.terms i) (O.verdictResp i) (O.hunter i fb) with
    | passed dd =>
      rw [hstep] at h
      simp only at h
      obtain rfl : dd = d := by exact Option.some.inj h
      obtain ⟨rfl, -, hpass⟩ := runStep_passed hstep
      cases hresp : O.verdictResp i (applyFocus (O.hunter i fb) focus) with
      | error f =>
        rw [hresp, verify_fault, treatedAsPass_crash] at hpass
        exact absurd hpass (by simp)
      | ok v =>
        rw [hresp, treatedAsPass_verify_ok] at hpass
        exact H i (applyFocus (O.hunter i fb) focus) v hresp hpass
    | skipped dd =>
      rw [hstep] at h
      simp only at h
      exact runLoop_pass_no_invalids O m n focus H fuel (i + 1) strictJsonMsg dd d h
    | failed fb2 dd =>
      rw [hstep] at h
      simp only at h
      exact runLoop_pass_no_invalids O m n focus H fuel (i + 1) fb2 dd d h

/-- An empty invalid-id list means every extracted id has an exact match in
one of the two tables. -/
theorem grounded_of_no_invalids {m n : List KBEntry} {d : Draft}
    (hinv : verifyInvalids m n d = []) :
    ∀ uid ∈ extractIds d, (m ++ n).any (fun e => e.id == uid) = true := by
  intro uid hmem
  simp only [verifyInvalids] at hinv
  have hfilter := List.filter_eq_nil_iff.mp hinv uid hmem
  have hcontains : ((foundEntries m n (extractIds d)).map KBEntry.id).contains uid = true := by
    cases hc : ((foundEntries m n (extractIds d)).map KBEntry.id).contains uid
    · exact absurd (by rw [hc]; rfl) hfilter
    · rfl
  have hmm : uid ∈ (foundEntries m n (extractIds d)).map KBEntry.id :=
    List.mem_of_elem_eq_true hcontains
  obtain ⟨e, he, heq⟩ := List.mem_map.mp hmm
  apply List.any_eq_true.mpr
  refine ⟨e, ?_, beq_iff_eq.mpr heq⟩
  unfold foundEntries at he
  rcases List.mem_append.mp he with h1 | h2
  · exact List.mem_append.mpr (Or.inl (List.mem_filter.mp h1).1)
  · exact List.mem_append.mpr (Or.inr (List.mem_filter.mp h2).1)

/-- C1 (amended): if the verification model returns a `PASS` status only
for drafts whose extracted ids are all found in the KB tables, then every
id of a candidate recorded as the passing final output has an exact id
match in one of the two tables.  (The code itself never checks the
invalid-id set before accepting `PASS`: grounding is delegated to the
model, see the counterexample.) -/
theorem C1_grounding (O : LoopOracles) (m n : List KBEntry) (focus : String)
    (H : ∀ (i : Nat) (d : Draft) (v : VerdictDict), O.verdictResp i d = .ok v →
      treatedAsPass v = true → verifyInvalids m n d = [])
    (d : Draft)
    (hfin : (runLoop O m n focus MAX_LOOPS 1 "" Draft.empty).final = some d)
    (uid : String) (hmem : uid ∈ extractIds d) :
    (m ++ n).any (fun e => e.id == uid) = true :=
  grounded_of_no_invalids
    (runLoop_pass_no_invalids O m n focus H MAX_LOOPS 1 "" Draft.empty d hfin) uid hmem

/-- C1 counterexample data: both KB tables loaded and non-empty. -/
def mC1 : List KBEntry := [⟨"T1566", some "Phishing", some "Deceptive messages", none, none⟩]

def nC1 : List KBEntry :=
  [⟨"K0001", none, some "Concepts of networking", some "Knowledge", none⟩]

/-- A candidate whose only technique id, `T9999`, is in neither table. -/
def dC1 : Draft :=
  ⟨some "Summary", some [⟨some "T9999", some "Made up", none⟩], none, none, none, none,
    some "because"⟩

/-- Oracles: the Hunter always drafts `dC1` and the verification model
answers `PASS` unconditionally. -/
def OC1 : LoopOracles :=
  ⟨fun _ _ => dC1, fun _ _ => [], fun _ _ => .ok ⟨some "PASS", some ""⟩⟩

set_option maxRecDepth 8192 in
set_option maxHeartbeats 1600000 in
/-- C1 counterexample: with both tables loaded, the loop records a passing
final output containing the id `T9999`, which matches no entry of either
table — the code enforces no grounding when the verification model says
`PASS`. -/
theorem C1_counterexample :
    (runLoop OC1 mC1 nC1 "both" MAX_LOOPS 1 "" Draft.empty).final = some dC1 ∧
    mC1.isEmpty = false ∧ nC1.isEmpty = false ∧
    "T9999" ∈ extractIds dC1 ∧
    (mC1 ++ nC1).any (fun e => e.id == "T9999") = false := by
  refine ⟨by decide, by decide, by decide, by decide, by decide⟩

/-- C1 witness data: a table with `T1566` and a candidate drafting it. -/
def mW1 : List KBEntry := [⟨"T1566", some "Phishing", some "Deceptive login messages", none, none⟩]

def dW1 : Draft :=
  ⟨some "Summary", some [⟨some "T1566", some "Phishing", none⟩], none, none, none, none, none⟩

/-- C1 witness oracles: the model passes exactly the drafts with no invalid
ids (the conformance hypothesis holds by construction). -/
def OW1 : LoopOracles :=
  ⟨fun _ _ => dW1, fun _ _ => [],
    fun _ d => if verifyInvalids mW1 [] d = [] then .ok ⟨some "PASS", some ""⟩
      else .ok ⟨some "FAIL", some "bad ids"⟩⟩

set_option maxRecDepth 8192 in
set_option maxHeartbeats 1600000 in
/-- C1 witness: with a conforming verdict model, the passing candidate's id
`T1566` is grounded in the technique table. -/
theorem C1_grounding_witness :
    (mW1 ++ ([] : List KBEntry)).any (fun e => e.id == "T1566") = true := by
  refine C1_grounding OW1 mW1 [] "both" ?_ dW1 ?_ "T1566" ?_
  · intro i d v hresp hpass
    by_cases hc : verifyInvalids mW1 [] d = []
    · exact hc
    · rw [show OW1.verdictResp i d
          = if verifyInvalids mW1 [] d = [] then Except.ok ⟨some "PASS", some ""⟩
            else Except.ok ⟨some "FAIL", some "bad ids"⟩ from rfl, if_neg hc] at hresp
      injection hresp with hv
      rw [← hv] at hpass
      exact absurd hpass (by decide)
  · decide
  · decide

/-- C2 (amended): the loop always terminates within the `MAX_LOOPS`
budget; on a pass the passing candidate is the result, and on exhaustion
the last drafted candidate is — so the result is non-empty whenever the
last drafting attempt produced a non-empty record or some attempt passed.
(An earlier non-empty attempt alone does not suffice, see the
counterexample.) -/
theorem run_eq (O : LoopOracles) (m n : List KBEntry) (focus : String) :
    run O m n focus
      = (runLoop O m n focus MAX_LOOPS 1 "" Draft.empty).final.getD
          (runLoop O m n focus MAX_LOOPS 1 "" Draft.empty).last := rfl

theorem C2_loop_termination (O : LoopOracles) (m n : List KBEntry) (focus : String) :
    (runLoop O m n focus MAX_LOOPS 1 "" Draft.empty).iters ≤ MAX_LOOPS ∧
    ((runLoop O m n focus MAX_LOOPS 1 "" Draft.empty).final = none →
      run O m n focus = (runLoop O m n focus MAX_LOOPS 1 "" Draft.empty).last) ∧
    (∀ d, (runLoop O m n focus MAX_LOOPS 1 "" Draft.empty).final = some d →
      run O m n focus = d) ∧
    (((runLoop O m n focus MAX_LOOPS 1 "" Draft.empty).last.isEmpty = false
        ∨ (runLoop O m n focus MAX_LOOPS 1 "" Draft.empty).final ≠ none) →
      (run O m n focus).isEmpty = false) := by
  refine ⟨runLoop_iters_le O m n focus MAX_LOOPS 1 "" Draft.empty, ?_, ?_, ?_⟩
  · intro hnone
    rw [run_eq, hnone]
    rfl
  · intro d hsome
    rw [run_eq, hsome]
    rfl
  · intro hc
    cases hfin : (runLoop O m n focus MAX_LOOPS 1 "" Draft.empty).final with
    | none =>
      rcases hc with h1 | h2
      · rw [run_eq, hfin]
        exact h1
      · exact absurd hfin h2
    | some d =>
      have hne := runLoop_final_nonempty O m n focus MAX_LOOPS 1 "" Draft.empty d hfin
      rw [run_eq, hfin]
      exact hne

/-- C2 counterexample data: attempt 1 drafts a truthy record, all later
attempts draft the empty record, and the Auditor always fails. -/
def dC2 : Draft := ⟨some "Attempt one", none, none, none, none, none, none⟩

def OC2 : LoopOracles :=
  ⟨fun i _ => if i == 1 then dC2 else Draft.empty, fun _ _ => [],
    fun _ _ => .ok ⟨some "FAIL", some "not grounded"⟩⟩

set_option maxRecDepth 8192 in
set_option maxHeartbeats 1600000 in
/-- C2 counterexample: the first drafting attempt produced a non-empty
record, yet the run's best-effort result is the empty record, because only
the *last* drafted candidate is returned and the last attempt drafted
`{}`. -/
theorem C2_counterexample :
    (applyFocus (OC2.hunter 1 "") "both").isEmpty = false ∧
    (run OC2 [] [] "both").isEmpty = true := by
  refine ⟨by decide, by decide⟩

/-- C2 witness data: every attempt drafts the same truthy record and the
Auditor always fails, so the budget is exhausted and the last draft is
returned. -/
def OW2 : LoopOracles :=
  ⟨fun _ _ => dC2, fun _ _ => [], fun _ _ => .ok ⟨some "FAIL", some "not grounded"⟩⟩

set_option maxRecDepth 8192 in
set_option maxHeartbeats 1600000 in
/-- C2 witness: with a non-empty last draft, the returned best-effort
record is non-empty. -/
theorem C2_loop_termination_witness :
    (run OW2 [] [] "both").isEmpty = false :=
  (C2_loop_termination OW2 [] [] "both").2.2.2 (Or.inl (by decide))

end NiceTry
